import Mathlib

/-!
Shallow embedding of the rsdiff diff engine (src/lib.rs).

File contents are modelled as lists of natural numbers (each standing for a
u8, reduced mod 256 at every decode site).  Fallible code is modelled with
`Except String` (the string is the panic message) or `Option`.  IEEE-754
floating point values are modelled by `FVal`: a finite value carries its
exact rational value; infinities and NaN are explicit constructors.  The
finite arithmetic used by the comparators (subtraction of two decoded
values, absolute value, comparison against the tolerance constant) is
modelled exactly over the rationals; rounding of the subtraction result is
not modelled, which is exact for all the concrete inputs evaluated here.
-/

namespace Rsdiff

/-- Model of an f32/f64 value: exact rational for finite values, with
explicit infinities and NaN. -/
inductive FVal where
  | finite (q : ℚ)
  | posInf
  | negInf
  | nan
  deriving DecidableEq, Repr

/-- IEEE subtraction on modelled float values.  NaN absorbs; opposite
infinities subtract to an infinity; same-signed infinities give NaN.
Finite subtraction is exact (rounding not modelled). -/
def fsub : FVal → FVal → FVal
  | .nan, _ => .nan
  | _, .nan => .nan
  | .finite a, .finite b => .finite (a - b)
  | .finite _, .posInf => .negInf
  | .finite _, .negInf => .posInf
  | .posInf, .finite _ => .posInf
  | .posInf, .negInf => .posInf
  | .posInf, .posInf => .nan
  | .negInf, .finite _ => .negInf
  | .negInf, .posInf => .negInf
  | .negInf, .negInf => .nan

/-- IEEE absolute value on modelled float values. -/
def fabs : FVal → FVal
  | .finite a => .finite |a|
  | .posInf => .posInf
  | .negInf => .posInf
  | .nan => .nan

/-- IEEE `<` on modelled float values: any comparison involving NaN is
false. -/
def fltB : FVal → FVal → Bool
  | .nan, _ => false
  | _, .nan => false
  | .finite a, .finite b => decide (a < b)
  | .finite _, .posInf => true
  | .finite _, .negInf => false
  | .posInf, _ => false
  | .negInf, .negInf => false
  | .negInf, _ => true

/-- Little-endian word value of a byte list (each entry reduced mod 256,
reflecting the u8 type of the Rust buffers). -/
def leWord : List Nat → Nat
  | [] => 0
  | b :: bs => b % 256 + 256 * leWord bs

/-- Consecutive 16-bit little-endian words of a byte stream; trailing
bytes that do not fill a word are dropped, as `read_u16` returns Err at
end of stream.  Models the cursor loops of the 16-bit comparators. -/
def readWords2 : List Nat → List Nat
  | b0 :: b1 :: rest => leWord [b0, b1] :: readWords2 rest
  | _ => []

/-- Consecutive 32-bit little-endian words of a byte stream. -/
def readWords4 : List Nat → List Nat
  | b0 :: b1 :: b2 :: b3 :: rest => leWord [b0, b1, b2, b3] :: readWords4 rest
  | _ => []

/-- Consecutive 64-bit little-endian words of a byte stream. -/
def readWords8 : List Nat → List Nat
  | b0 :: b1 :: b2 :: b3 :: b4 :: b5 :: b6 :: b7 :: rest =>
      leWord [b0, b1, b2, b3, b4, b5, b6, b7] :: readWords8 rest
  | _ => []

/-- Two's-complement reading of a `bits`-bit word. -/
def toSigned (bits : Nat) (w : Nat) : Int :=
  if w < 2 ^ (bits - 1) then (w : Int) else (w : Int) - 2 ^ bits

/-- Decode a 32-bit word as an IEEE-754 single-precision value. -/
def decodeF32 (w : Nat) : FVal :=
  let w := w % 2 ^ 32
  let sign := w / 2 ^ 31
  let expo := w / 2 ^ 23 % 2 ^ 8
  let frac := w % 2 ^ 23
  if expo = 255 then
    if frac = 0 then (if sign = 1 then .negInf else .posInf) else .nan
  else
    let sgn : ℚ := if sign = 1 then -1 else 1
    let mantissa : Nat := if expo = 0 then frac else 2 ^ 23 + frac
    let e2 : Nat := if expo = 0 then 1 else expo
    .finite (sgn * ((mantissa * 2 ^ e2 : Nat) : ℚ) / 2 ^ 150)

/-- Decode a 64-bit word as an IEEE-754 double-precision value. -/
def decodeF64 (w : Nat) : FVal :=
  let w := w % 2 ^ 64
  let sign := w / 2 ^ 63
  let expo := w / 2 ^ 52 % 2 ^ 11
  let frac := w % 2 ^ 52
  if expo = 2047 then
    if frac = 0 then (if sign = 1 then .negInf else .posInf) else .nan
  else
    let sgn : ℚ := if sign = 1 then -1 else 1
    let mantissa : Nat := if expo = 0 then frac else 2 ^ 52 + frac
    let e2 : Nat := if expo = 0 then 1 else expo
    .finite (sgn * ((mantissa * 2 ^ e2 : Nat) : ℚ) / 2 ^ 1075)

/-- Decoded f32 stream of a byte buffer. -/
def readF32s (bytes : List Nat) : List FVal := (readWords4 bytes).map decodeF32

/-- Decoded f64 stream of a byte buffer. -/
def readF64s (bytes : List Nat) : List FVal := (readWords8 bytes).map decodeF64

/-- Model of the fixed tolerance constant `1e-16` used by the float
comparators (the exact decimal value of the source literal). -/
def TOLERANCE : ℚ := 1 / 10 ^ 16

/-- Byte-level buffer comparator `diff_buffer`: counts positions with
equal bytes.  `none` models the panic on buffers of unequal length. -/
def diff_buffer (left right : List Nat) : Option Nat :=
  if left.length = right.length then
    some ((left.zip right).countP (fun p => decide (p.1 % 256 = p.2 % 256)))
  else none

/-- Typed comparator `diff_transmute_buffers_f32`: decodes both buffers as
little-endian f32 and counts positions with `|a - b| < tolerance`. -/
def diff_transmute_buffers_f32 (left right : List Nat) (tolerance : ℚ) : Option Nat :=
  if left.length = right.length then
    some (((readF32s left).zip (readF32s right)).countP
      (fun p => fltB (fabs (fsub p.1 p.2)) (.finite tolerance)))
  else none

/-- Typed comparator `diff_transmute_buffers_f64`. -/
def diff_transmute_buffers_f64 (left right : List Nat) (tolerance : ℚ) : Option Nat :=
  if left.length = right.length then
    some (((readF64s left).zip (readF64s right)).countP
      (fun p => fltB (fabs (fsub p.1 p.2)) (.finite tolerance)))
  else none

/-- Typed comparator `diff_transmute_buffers_u16`: exact equality of
decoded 16-bit unsigned words. -/
def diff_transmute_buffers_u16 (left right : List Nat) : Option Nat :=
  if left.length = right.length then
    some (((readWords2 left).zip (readWords2 right)).countP
      (fun p => decide (p.1 = p.2)))
  else none

/-- Typed comparator `diff_transmute_buffers_u32`. -/
def diff_transmute_buffers_u32 (left right : List Nat) : Option Nat :=
  if left.length = right.length then
    some (((readWords4 left).zip (readWords4 right)).countP
      (fun p => decide (p.1 = p.2)))
  else none

/-- Typed comparator `diff_transmute_buffers_u64`. -/
def diff_transmute_buffers_u64 (left right : List Nat) : Option Nat :=
  if left.length = right.length then
    some (((readWords8 left).zip (readWords8 right)).countP
      (fun p => decide (p.1 = p.2)))
  else none

/-- Typed comparator `diff_transmute_buffers_i16`: exact equality of
decoded 16-bit two's-complement words. -/
def diff_transmute_buffers_i16 (left right : List Nat) : Option Nat :=
  if left.length = right.length then
    some (((readWords2 left).zip (readWords2 right)).countP
      (fun p => decide (toSigned 16 p.1 = toSigned 16 p.2)))
  else none

/-- Typed comparator `diff_transmute_buffers_i32`. -/
def diff_transmute_buffers_i32 (left right : List Nat) : Option Nat :=
  if left.length = right.length then
    some (((readWords4 left).zip (readWords4 right)).countP
      (fun p => decide (toSigned 32 p.1 = toSigned 32 p.2)))
  else none

/-- Typed comparator `diff_transmute_buffers_i64`. -/
def diff_transmute_buffers_i64 (left right : List Nat) : Option Nat :=
  if left.length = right.length then
    some (((readWords8 left).zip (readWords8 right)).countP
      (fun p => decide (toSigned 64 p.1 = toSigned 64 p.2)))
  else none

/-- The type-code dispatch of `diff_nii` (the `match dtype` building
`buffer_differ`); `none` models the panic on an unsupported data type.
Note that the source maps both 1024 and 1280 to the signed 64-bit
comparator `diff_transmute_buffers_i64`. -/
def buffer_differ (dtype : Nat) : Option (List Nat → List Nat → Option Nat) :=
  match dtype with
  | 4 => some (fun a b => diff_transmute_buffers_i16 a b)
  | 8 => some (fun a b => diff_transmute_buffers_i32 a b)
  | 16 => some (fun a b => diff_transmute_buffers_f32 a b TOLERANCE)
  | 64 => some (fun a b => diff_transmute_buffers_f64 a b TOLERANCE)
  | 512 => some (fun a b => diff_transmute_buffers_u16 a b)
  | 768 => some (fun a b => diff_transmute_buffers_u32 a b)
  | 1024 => some (fun a b => diff_transmute_buffers_i64 a b)
  | 1280 => some (fun a b => diff_transmute_buffers_i64 a b)
  | _ => none

/-- Chunk size of the streaming loops: 256 KiB. -/
def CHUNK_SIZE : Nat := 256 * 1024

/-- State of a `BufReader`: the not-yet-consumed part of the internal
buffer, and the bytes of the underlying file not yet read into it. -/
structure BufReader where
  buf : List Nat
  rest : List Nat
  deriving DecidableEq, Repr

/-- `BufReader::fill_buf`: if the internal buffer is exhausted, refill it
with up to `CHUNK_SIZE` bytes from the file; return the buffer contents
and the updated reader. -/
def BufReader.fillBuf (r : BufReader) : List Nat × BufReader :=
  if r.buf.isEmpty then
    (r.rest.take CHUNK_SIZE, ⟨r.rest.take CHUNK_SIZE, r.rest.drop CHUNK_SIZE⟩)
  else (r.buf, r)

/-- `BufReader::consume(amt)`: drop up to `amt` bytes from the internal
buffer only (`pos = min(pos + amt, cap)`).  In particular, consuming on a
reader whose buffer has never been filled discards nothing. -/
def BufReader.consume (r : BufReader) (amt : Nat) : BufReader :=
  ⟨r.buf.drop amt, r.rest⟩

/-- The shared fill/compare/consume loop of `diff_bytes` and
`diff_voxels_nii` (the two Rust loops are textually identical up to the
buffer comparator used).  `bd` is the buffer comparator; `none` from it
models its panic and aborts the loop.  `fuel` is a structural bound on
the number of iterations; every caller passes at least one more than the
number of bytes left, which the lemmas below show is sufficient, so the
`fuel = 0` branch is unreachable from the public definitions. -/
def bufLoopF (bd : List Nat → List Nat → Option Nat) :
    Nat → BufReader → BufReader → Nat → Except String Nat
  | 0, _, _, _ => .error "loop bound exhausted"
  | fuel + 1, lrdr, rrdr, total_matches =>
    let lf := lrdr.fillBuf
    let rf := rrdr.fillBuf
    if lf.1.length = 0 then
      .ok total_matches
    else
      match bd lf.1 rf.1 with
      | none => .error "buffer length mismatch"
      | some m =>
          bufLoopF bd fuel (lf.2.consume lf.1.length) (rf.2.consume lf.1.length)
            (total_matches + m)

/-- The read/compare loop of `diff_voxels_nii_gz`.  `lrem`/`rrem` are the
not-yet-read parts of the two decompressed streams; each `read` call
fills the 256 KiB array with `min CHUNK_SIZE remaining` bytes. -/
def gzLoopF (bd : List Nat → List Nat → Option Nat) :
    Nat → List Nat → List Nat → Nat → Except String Nat
  | 0, _, _, _ => .error "loop bound exhausted"
  | fuel + 1, lrem, rrem, total_matches =>
    let nl := min CHUNK_SIZE lrem.length
    let nr := min CHUNK_SIZE rrem.length
    if nl ≠ nr then
      .error "Unexpected file size difference!"
    else if nl = 0 then
      .ok total_matches
    else
      match bd (lrem.take nl) (rrem.take nl) with
      | none => .error "buffer length mismatch"
      | some m => gzLoopF bd fuel (lrem.drop nl) (rrem.drop nl) (total_matches + m)

/-- `diff_voxels_nii`: compares two uncompressed nifti payload streams.
The source intends to skip `vox_offset` bytes by calling
`BufReader::consume(vox_offset)` before any `fill_buf`; per the
`BufReader.consume` model above this discards nothing, so the loop in
fact starts at byte 0 of each file. -/
def diff_voxels_nii (left right : List Nat) (vox_offset : Nat)
    (bd : List Nat → List Nat → Option Nat) : Except String Nat :=
  let left_rdr : BufReader := ⟨[], left⟩
  let right_rdr : BufReader := ⟨[], right⟩
  bufLoopF bd (left.length + 1) (left_rdr.consume vox_offset)
    (right_rdr.consume vox_offset) 0

/-- `diff_voxels_nii_gz`: compares two gzip streams after decompression
(`left`/`right` here are the decompressed streams delivered by the
external `GzDecoder`).  The source intends to skip `vox_offset` bytes by
`read_exact` into a placeholder created with `Vec::with_capacity
(vox_offset)`; that vector has length 0, so the `read_exact` reads zero
bytes and the loop starts at byte 0 of each decompressed stream. -/
def diff_voxels_nii_gz (left right : List Nat) (vox_offset : Nat)
    (bd : List Nat → List Nat → Option Nat) : Except String Nat :=
  let place_holder_len : Nat := 0
  gzLoopF bd (left.length + 1) (left.drop place_holder_len)
    (right.drop place_holder_len) 0

/-- The comparison result record.  Field order follows the Rust struct;
an inductive is used because `sub_diffs` nests the type in a list. -/
inductive Diff where
  | mk (left right : String) (matches' : Bool)
       (left_only right_only common : List String)
       (similarity : FVal) (additional_info : String)
       (sub_diffs : List Diff) (report : String)

/-- Field accessor. -/
def Diff.left : Diff → String
  | .mk l _ _ _ _ _ _ _ _ _ => l

/-- Field accessor. -/
def Diff.right : Diff → String
  | .mk _ r _ _ _ _ _ _ _ _ => r

/-- Field accessor for the `matches` field (`matches` is a Lean keyword,
hence the prime). -/
def Diff.matches' : Diff → Bool
  | .mk _ _ m _ _ _ _ _ _ _ => m

/-- Field accessor. -/
def Diff.left_only : Diff → List String
  | .mk _ _ _ lo _ _ _ _ _ _ => lo

/-- Field accessor. -/
def Diff.right_only : Diff → List String
  | .mk _ _ _ _ ro _ _ _ _ _ => ro

/-- Field accessor. -/
def Diff.common : Diff → List String
  | .mk _ _ _ _ _ c _ _ _ _ => c

/-- Field accessor. -/
def Diff.similarity : Diff → FVal
  | .mk _ _ _ _ _ _ s _ _ _ => s

/-- Field accessor. -/
def Diff.additional_info : Diff → String
  | .mk _ _ _ _ _ _ _ a _ _ => a

/-- Field accessor. -/
def Diff.sub_diffs : Diff → List Diff
  | .mk _ _ _ _ _ _ _ _ s _ => s

/-- Field accessor. -/
def Diff.report : Diff → String
  | .mk _ _ _ _ _ _ _ _ _ r => r

/-- Replace the `matches` field, keeping every other field. -/
def Diff.withMatches : Diff → Bool → Diff
  | .mk l r _ lo ro c s a sd rp, m => .mk l r m lo ro c s a sd rp

/-- `Diff::new`: the default record (`matches = false`,
`similarity = -1.0`, everything else empty). -/
def Diff.new (left right : String) : Diff :=
  .mk left right false [] [] [] (.finite (-1)) "" [] ""

/-- Parsed nifti header fields consumed by the comparator: the eight-entry
dimension vector, the element type code, and the payload byte offset
(`vox_offset` is an f32 in the format; the source casts it to usize, so it
is modelled as a natural number directly). -/
structure NiftiHeader where
  dim : List Nat
  datatype : Nat
  vox_offset : Nat
  deriving DecidableEq, Repr

/-- A regular file of the modelled filesystem, together with the outputs
the external collaborators would produce for it: `gunzipped` is the
decompressed stream the gzip decoder yields on `bytes`, and `parsedNifti`
is the header the external nifti parser reports (`none` when the bytes are
not a valid nifti file). -/
structure FileData where
  bytes : List Nat
  gunzipped : List Nat
  parsedNifti : Option NiftiHeader

/-- A filesystem object: a regular file or a directory with named
entries. -/
inductive FsObj where
  | file (data : FileData)
  | dir (entries : List (String × FsObj))

/-- Model of `str::ends_with`: suffix test on the underlying character
list (computationally transparent, unlike `String.endsWith`). -/
def ends_with (s pat : String) : Bool := pat.data.isSuffixOf s.data

/-- Size reported by `fs::metadata` for a directory: platform dependent
(an inode size); modelled as an arbitrary fixed constant. -/
def dirMetaLen : Nat := 4096

/-- `fs::metadata(..).len()`. -/
def FsObj.metaLen : FsObj → Nat
  | .file d => d.bytes.length
  | .dir _ => dirMetaLen

/-- `diff_bytes`, generalized over the buffer comparator fed by the chunk
loop (the source hard-wires `diff_buffer`; the parameter makes the
size-mismatch short-circuit observable, mirroring the probe-comparator
test the spec describes).  Kind guard, size comparison and loop follow
the source; the percentage suffix of `additional_info` on a partial match
is f32 presentation formatting and is not modelled. -/
def diff_bytesWith (bc : List Nat → List Nat → Option Nat)
    (left right : String) (x y : FsObj) : Except String Diff :=
  match x with
  | .dir _ =>
    match y with
    | .dir _ => .error (left ++ " and " ++ right ++ " are not files!")
    | .file _ => .error "Left is not a file!"
  | .file fx =>
    if x.metaLen = y.metaLen then
      match y with
      | .dir _ => .error "Uh-h 3!"
      | .file fy =>
        match bufLoopF bc (fx.bytes.length + 1) ⟨[], fx.bytes⟩ ⟨[], fy.bytes⟩ 0 with
        | .error e => .error e
        | .ok total_matches =>
          let fsize := fx.bytes.length
          let matches' := decide (total_matches = fsize)
          let similarity : FVal :=
            if fsize = 0 then (if total_matches = 0 then .nan else .posInf)
            else .finite ((total_matches : ℚ) / (fsize : ℚ))
          let additional_info :=
            if matches' then ""
            else toString total_matches ++ " of " ++ toString fsize ++ " bytes match"
          let report :=
            if matches' then ""
            else left ++ " vs " ++ right ++ ": " ++ additional_info
          .ok (.mk left right matches' [] [] [] similarity additional_info [] report)
    else
      let additional_info :=
        "file sizes differ: " ++ toString x.metaLen ++ " vs. " ++ toString y.metaLen
      .ok (.mk left right false [] [] [] (.finite (-1)) additional_info []
        (left ++ " vs " ++ right ++ ": " ++ additional_info))

/-- `diff_bytes` proper: the chunk loop feeds `diff_buffer`. -/
def diff_bytes (left right : String) (x y : FsObj) : Except String Diff :=
  diff_bytesWith diff_buffer left right x y

/-- `diff_nii`: header parse (delegated to the oracle fields of the
files), shape and type checks, type dispatch, payload comparison, voxel
count and report.  The `{:04.2}` percentage of the voxel report and the
pretty-printing of the dimension vectors are presentation formatting and
are rendered without the float part. -/
def diff_nii (left right : String) (x y : FsObj) : Except String Diff :=
  match x, y with
  | .file fx, .file fy =>
    match fx.parsedNifti, fy.parsedNifti with
    | some lh, some rh =>
      if lh.dim = rh.dim then
        if lh.datatype ≠ rh.datatype then
          .ok (.mk left right false [] [] [] (.finite (-1)) "" []
            (left ++ " vs " ++ right ++ ": Shapes match, types diverge (" ++
              toString lh.datatype ++ " vs. " ++ toString rh.datatype ++ ")"))
        else
          match buffer_differ lh.datatype with
          | none => .error ("Unsupported data type " ++ toString lh.datatype)
          | some bd =>
            let vox_offset := lh.vox_offset
            match (if ends_with left "gz" then
                     diff_voxels_nii_gz fx.gunzipped fy.gunzipped vox_offset bd
                   else
                     diff_voxels_nii fx.bytes fy.bytes vox_offset bd) with
            | .error e => .error e
            | .ok total_matches =>
              let total_voxels :=
                lh.dim.foldl (fun acc dv => acc * (if dv = 0 then 1 else dv)) 1
              let matches' := decide (total_voxels = total_matches)
              let additional_info :=
                if matches' then ""
                else "Voxels diverge: " ++ toString total_matches ++ " of " ++
                  toString total_voxels ++ " match"
              let report :=
                if matches' then ""
                else left ++ " vs. " ++ right ++ ": " ++ additional_info
              .ok (.mk left right matches' [] [] [] (.finite (-1))
                additional_info [] report)
      else
        let additional_info :=
          "Shapes diverge: " ++ toString lh.dim ++ " vs. " ++ toString rh.dim
        .ok (.mk left right false [] [] [] (.finite (-1)) additional_info []
          (left ++ " vs. " ++ right ++ ": " ++ additional_info))
    | none, _ => .error "Cannot read left file as nifti!"
    | _, none => .error "Cannot read right file as nifti!"
  | _, _ => .error "Cannot read left file as nifti!"

/-- The first reconciliation loop of `diff_directory`: walk the left
names, pushing each into `common` when the right listing contains it and
into `left_only` otherwise.  Returns `(common, left_only)`. -/
def partitionLeft : List String → List String → List String × List String
  | [], _ => ([], [])
  | x :: xs, right_onames =>
    let rest := partitionLeft xs right_onames
    if right_onames.contains x then (x :: rest.1, rest.2)
    else (rest.1, x :: rest.2)

/-- The second reconciliation loop of `diff_directory`: walk the right
names, pushing each not already classified common into `right_only`. -/
def rightOnlyList : List String → List String → List String
  | [], _ => []
  | x :: xs, common =>
    if common.contains x then rightOnlyList xs common
    else x :: rightOnlyList xs common

/-- Report construction of `diff_directory` for a non-matching result.
The `colored` crate escape sequences wrapped around each line are
terminal presentation (and are emitted only on a tty), so they are not
modelled; line contents and order follow the source. -/
def dirReport (left right : String) (left_only right_only : List String)
    (sub_diffs : List Diff) : String :=
  left ++ " vs. " ++ right ++ "\n" ++
  (if left_only.length ≠ 0 then
    "Only in " ++ left ++ ": " ++ String.intercalate ", " left_only ++ "\n"
   else "") ++
  (if right_only.length ≠ 0 then
    "Only in " ++ right ++ ": " ++ String.intercalate ", " right_only ++ "\n"
   else "") ++
  String.join ((sub_diffs.filter (fun s => !s.matches')).map
    (fun s => s.report ++ "\n"))

/-- Resolve a directory entry by name, as the recursive `differ` call on
the joined path would (the filesystem serves the first entry with that
name). -/
def childNamed (entries : List (String × FsObj)) (f : String) : Option FsObj :=
  (entries.find? (fun e => e.1 == f)).map Prod.snd

/-- Aggregation condition of `diff_directory` (source line: left_only and
right_only empty and all sub-diffs match). -/
def dirMatches (left_only right_only : List String) (sub_diffs : List Diff) : Bool :=
  decide (left_only.length = 0) && decide (right_only.length = 0) &&
    sub_diffs.all (fun a => a.matches')

mutual

/-- The dispatcher `differ`, with an explicit recursion bound: the bound
decreases by one at each directory level, so any bound exceeding the
nesting depth of the left object gives the behavior of the unbounded
source recursion (see `differ`). -/
def differFuel : Nat → String → String → FsObj → FsObj → Except String Diff
  | 0, _, _, _, _ => .error "recursion bound exhausted"
  | fuel + 1, left, right, x, y =>
    match x with
    | .dir _ => diff_directoryFuel fuel left right x y
    | .file _ =>
      if ends_with left ".nii.gz" || ends_with left ".nii" then
        diff_nii left right x y
      else
        diff_bytes left right x y

/-- `diff_directory` with the same recursion bound (the bound is only
consumed by the dispatcher, one unit per directory level).  The kind
guard follows the source exactly: it rejects only a non-directory left
side; a non-directory right side passes the guard and fails later when
its entries are listed (`read_dir` panic message "Boo"). -/
def diff_directoryFuel : Nat → String → String → FsObj → FsObj → Except String Diff
  | fuel, left, right, x, y =>
    match x with
    | .file _ =>
      match y with
      | .file _ => .error "Left and right are not dirs!"
      | .dir _ => .error "Left is not a dir!"
    | .dir lentries =>
      match y with
      | .file _ => .error "Boo"
      | .dir rentries =>
        let left_onames := lentries.map Prod.fst
        let right_onames := rentries.map Prod.fst
        let cl := partitionLeft left_onames right_onames
        let common := cl.1
        let left_only := cl.2
        let right_only := rightOnlyList right_onames common
        match subDiffsFuel fuel left right lentries rentries common with
        | .error e => .error e
        | .ok sub_diffs =>
          let matches' := dirMatches left_only right_only sub_diffs
          let report :=
            if matches' then ""
            else dirReport left right left_only right_only sub_diffs
          .ok (.mk left right matches' left_only right_only common
            (.finite (-1)) "" sub_diffs report)

/-- The per-common-entry loop of `diff_directory`: resolve each common
name on both sides and recurse through the dispatcher on the joined
paths, collecting the child results in order. -/
def subDiffsFuel : Nat → String → String → List (String × FsObj) →
    List (String × FsObj) → List String → Except String (List Diff)
  | _, _, _, _, _, [] => .ok []
  | fuel, left, right, lentries, rentries, f :: rest =>
    match childNamed lentries f with
    | none => .error "Left does not exist"
    | some cx =>
      match childNamed rentries f with
      | none => .error "Right does not exist"
      | some cy =>
        match differFuel fuel (left ++ "/" ++ f) (right ++ "/" ++ f) cx cy with
        | .error e => .error e
        | .ok d =>
          match subDiffsFuel fuel left right lentries rentries rest with
          | .error e => .error e
          | .ok ds => .ok (d :: ds)

end

mutual

/-- Nesting depth of a filesystem object (0 for files). -/
def FsObj.height : FsObj → Nat
  | .file _ => 0
  | .dir entries => 1 + FsObj.heightList entries

/-- Maximal nesting depth over a list of entries. -/
def FsObj.heightList : List (String × FsObj) → Nat
  | [] => 0
  | e :: es => max (FsObj.height e.2) (FsObj.heightList es)

end

/-- The dispatcher `differ`.  Both paths are assumed to exist (the model
filesystem supplies the objects); the recursion bound exceeds the
directory nesting depth, so it is never exhausted. -/
def differ (left right : String) (x y : FsObj) : Except String Diff :=
  differFuel (FsObj.height x + 1) left right x y

/-- `diff_directory` as a standalone entry point (same bound reasoning as
`differ`). -/
def diff_directory (left right : String) (x y : FsObj) : Except String Diff :=
  diff_directoryFuel (FsObj.height x + 1) left right x y

mutual

/-- Holds when no path reached from `name`/`x` by the recursion of
`differ` carries the nifti filename suffix, i.e. every regular file in
the tree is dispatched to the byte comparator, never to the typed image
comparator. -/
def goodDispatch : String → FsObj → Bool
  | name, .file _ => !(ends_with name ".nii.gz" || ends_with name ".nii")
  | name, .dir entries => goodDispatchList name entries

/-- List version of `goodDispatch` over directory entries, using the
joined paths the recursion uses. -/
def goodDispatchList : String → List (String × FsObj) → Bool
  | _, [] => true
  | name, e :: es =>
    goodDispatch (name ++ "/" ++ e.1) e.2 && goodDispatchList name es

end

/-- A representative single-voxel nifti-1 file: 348-byte header plus
extension bytes up to `vox_offset = 352`, followed by one 16-bit voxel
(datatype code 4, all dimension entries 1).  The header bytes themselves
do not influence a self-comparison; the oracle field carries the header
the external nifti parser reports for such a file. -/
def niiSelfData : FileData :=
  ⟨List.replicate 352 0 ++ [7, 7], [], some ⟨[1, 1, 1, 1, 1, 1, 1, 1], 4, 352⟩⟩

/-- A small directory tree with no nifti-suffixed names, used to witness
the reflexivity theorem. -/
def sampleTree : FsObj :=
  .dir [("a", .file ⟨[1], [], none⟩),
        ("sub", .dir [("b", .file ⟨[], [], none⟩), ("c", .file ⟨[2, 3], [], none⟩)])]

/-!
Theorems.  Helper lemmas come first, then one theorem per claim (with
witnesses and counterexamples as separate theorems).
-/

/-- A `countP` only depends on the values of the predicate on the list
members. -/
theorem countP_ext {α : Type} (l : List α) (p q : α → Bool)
    (h : ∀ x ∈ l, p x = q x) : l.countP p = l.countP q := by
  induction l with
  | nil => rfl
  | cons a t ih =>
    simp only [List.countP_cons, h a (List.mem_cons_self a t),
      ih (fun x hx => h x (List.mem_cons_of_mem a hx))]

/-- The little-endian word of a byte list is bounded by `256 ^ length`. -/
theorem leWord_lt (l : List Nat) : leWord l < 256 ^ l.length := by
  induction l with
  | nil => simp [leWord]
  | cons b bs ih =>
    have hb : b % 256 < 256 := Nat.mod_lt b (by norm_num)
    simp only [leWord, List.length_cons, pow_succ]
    omega

/-- Every word produced by the 64-bit stream reader fits in 64 bits. -/
theorem mem_readWords8_lt {l : List Nat} {w : Nat} (h : w ∈ readWords8 l) :
    w < 2 ^ 64 := by
  induction l using readWords8.induct with
  | case1 b0 b1 b2 b3 b4 b5 b6 b7 rest ih =>
    rw [readWords8] at h
    rcases List.mem_cons.1 h with h | h
    · subst h
      have := leWord_lt [b0, b1, b2, b3, b4, b5, b6, b7]
      norm_num at this ⊢
      omega
    · exact ih h
  | case2 l hl =>
    rw [readWords8.eq_def] at h
    split at h
    · exact (hl _ _ _ _ _ _ _ _ _ rfl).elim
    · simp at h

/-- Two's-complement reading is injective on 64-bit words. -/
theorem toSigned64_inj {a b : Nat} (ha : a < 2 ^ 64) (hb : b < 2 ^ 64) :
    toSigned 64 a = toSigned 64 b ↔ a = b := by
  unfold toSigned
  norm_num
  split <;> split <;> omega

/-- C1: evaluation at a failing input.  On identical 4-byte inputs with
`vox_offset = 2`, both the uncompressed and the gzip voxel comparators
return a match count of 4 — every byte of the file including the 2-byte
header region — whereas a payload-only comparison (the bytes from offset
2) yields 2.  The consume/read_exact calls meant to skip the offset
discard nothing, so the claimed header skipping does not happen on
either path. -/
theorem C1_offset_not_skipped :
    diff_voxels_nii [9, 9, 1, 2] [9, 9, 1, 2] 2 diff_buffer = .ok 4 ∧
    diff_voxels_nii_gz [9, 9, 1, 2] [9, 9, 1, 2] 2 diff_buffer = .ok 4 ∧
    diff_buffer (List.drop 2 [9, 9, 1, 2]) (List.drop 2 [9, 9, 1, 2]) = some 2 := by
  refine ⟨rfl, rfl, by decide⟩

/-- C3: evaluation at the failing input.  The type-code dispatch sends
code 1280 to the signed 64-bit comparator `diff_transmute_buffers_i64`
(the same comparator as code 1024), not to the unsigned one the claim
names; the slip is observationally harmless because exact equality of
two's-complement readings coincides with exact equality of unsigned
readings, which the second conjunct proves for all buffers. -/
theorem C3_code_1280_dispatch :
    buffer_differ 1280 = some (fun a b => diff_transmute_buffers_i64 a b) ∧
    buffer_differ 1024 = some (fun a b => diff_transmute_buffers_i64 a b) ∧
    ∀ a b, diff_transmute_buffers_i64 a b = diff_transmute_buffers_u64 a b := by
  refine ⟨rfl, rfl, fun a b => ?_⟩
  unfold diff_transmute_buffers_i64 diff_transmute_buffers_u64
  split
  · refine congrArg some (countP_ext _ _ _ fun p hp => ?_)
    have hmem := List.of_mem_zip hp
    have h1 := mem_readWords8_lt hmem.1
    have h2 := mem_readWords8_lt hmem.2
    exact decide_eq_decide.mpr (toSigned64_inj h1 h2)
  · rfl

/-- C3 witness: the buffer-level equivalence applied at a concrete
buffer pair. -/
theorem C3_code_1280_dispatch_witness :
    diff_transmute_buffers_i64 [1, 2, 3, 4, 5, 6, 7, 255] [1, 2, 3, 4, 5, 6, 7, 255] =
      diff_transmute_buffers_u64 [1, 2, 3, 4, 5, 6, 7, 255] [1, 2, 3, 4, 5, 6, 7, 255] :=
  C3_code_1280_dispatch.2.2 [1, 2, 3, 4, 5, 6, 7, 255] [1, 2, 3, 4, 5, 6, 7, 255]

/-- C10: a position where either side decodes to NaN never satisfies the
tolerance test (first conjunct), and the typed float comparators count
zero matches on byte-identical buffers holding a single NaN, in both the
32-bit and the 64-bit case. -/
theorem C10_nan_self_mismatch :
    (∀ a b : FVal, a = FVal.nan ∨ b = FVal.nan →
      fltB (fabs (fsub a b)) (.finite TOLERANCE) = false) ∧
    readF32s [0, 0, 192, 127] = [FVal.nan] ∧
    diff_transmute_buffers_f32 [0, 0, 192, 127] [0, 0, 192, 127] TOLERANCE = some 0 ∧
    readF64s [0, 0, 0, 0, 0, 0, 248, 127] = [FVal.nan] ∧
    diff_transmute_buffers_f64 [0, 0, 0, 0, 0, 0, 248, 127]
      [0, 0, 0, 0, 0, 0, 248, 127] TOLERANCE = some 0 := by
  refine ⟨fun a b h => ?_, by decide, by decide, by decide, by decide⟩
  rcases h with h | h
  · subst h; cases b <;> rfl
  · subst h; cases a <;> rfl

/-- C10 witness: the NaN-rejection fact applied at a concrete pair. -/
theorem C10_nan_self_mismatch_witness :
    fltB (fabs (fsub FVal.nan FVal.nan)) (.finite TOLERANCE) = false :=
  C10_nan_self_mismatch.1 FVal.nan FVal.nan (Or.inl rfl)

/-- C2 counterexample: the buffers decode to 1.0 and its immediate
successor (a last-bit-of-precision difference), yet the comparator
counts zero matching positions, because their difference 2 ^ (-23)
vastly exceeds the absolute tolerance 1e-16; the claim asserts all
positions of such a pair are judged matching. -/
theorem C2_last_bit_not_matching :
    readF32s [0, 0, 128, 63] = [FVal.finite 1] ∧
    readF32s [1, 0, 128, 63] = [FVal.finite (1 + 1 / 2 ^ 23)] ∧
    diff_transmute_buffers_f32 [0, 0, 128, 63] [1, 0, 128, 63] TOLERANCE = some 0 := by
  refine ⟨?_, ?_, ?_⟩
  · simp only [readF32s, readWords4, leWord, decodeF32, List.map]
    norm_num
  · simp only [readF32s, readWords4, leWord, decodeF32, List.map]
    norm_num
  · simp only [diff_transmute_buffers_f32, readF32s, readWords4, leWord, decodeF32,
      List.map, TOLERANCE]
    norm_num [List.countP, List.countP.go, fsub, fabs, fltB, Bool.cond_decide, abs_of_pos]

/-- C2 amended: for equal-length buffers the comparator returns the count
of positions passing the tolerance test, and a position passes the test
precisely when both sides decode to finite values whose exact difference
is below the tolerance — so a last-bit difference is judged matching only
when it is smaller than 1e-16 (values near zero), never in general, and
differences of at least the tolerance are never judged matching. -/
theorem C2_tolerance_characterization (l r : List Nat) (h : l.length = r.length) :
    diff_transmute_buffers_f32 l r TOLERANCE =
      some (((readF32s l).zip (readF32s r)).countP
        (fun p => fltB (fabs (fsub p.1 p.2)) (.finite TOLERANCE))) ∧
    ∀ a b : FVal, fltB (fabs (fsub a b)) (.finite TOLERANCE) = true ↔
      ∃ qa qb : ℚ, a = .finite qa ∧ b = .finite qb ∧ |qa - qb| < TOLERANCE := by
  constructor
  · unfold diff_transmute_buffers_f32
    rw [if_pos h]
  · intro a b
    cases a <;> cases b <;> simp [fsub, fabs, fltB]

/-- C2 witness: the characterization applied to a concrete pair of
one-element buffers differing in the last bit near zero (0.0 and the
smallest positive subnormal), where the single position is judged
matching. -/
theorem C2_tolerance_characterization_witness :
    diff_transmute_buffers_f32 [0, 0, 0, 0] [1, 0, 0, 0] TOLERANCE = some 1 :=
  (C2_tolerance_characterization [0, 0, 0, 0] [1, 0, 0, 0] rfl).1.trans (by
    simp only [readF32s, readWords4, leWord, decodeF32, List.map, TOLERANCE]
    norm_num [List.countP, List.countP.go, fsub, fabs, fltB, Bool.cond_decide, abs_of_pos])

/-- Zipping splits along a take/drop boundary. -/
theorem zip_take_drop {α β : Type} (n : Nat) (l : List α) (r : List β) :
    l.zip r = (l.take n).zip (r.take n) ++ (l.drop n).zip (r.drop n) := by
  induction n generalizing l r with
  | zero => simp
  | succ n ih =>
    cases l with
    | nil => simp
    | cons a l =>
      cases r with
      | nil => simp
      | cons b r => simp [List.zip_cons_cons, ih l r]

/-- The byte-match count of a buffer against itself is its length. -/
theorem countEq_self (l : List Nat) :
    (l.zip l).countP (fun p => decide (p.1 % 256 = p.2 % 256)) = l.length := by
  induction l with
  | nil => rfl
  | cons a t ih => simp [List.zip_cons_cons, List.countP_cons, ih]

/-- Characterization of the shared chunk loop when fed `diff_buffer` on
equal-length streams with sufficient bound: it accumulates exactly the
positional byte-match count of the whole streams. -/
theorem bufLoopF_diff_buffer (fuel : Nat) :
    ∀ (l r : List Nat) (total : Nat), l.length = r.length → l.length < fuel →
      bufLoopF diff_buffer fuel ⟨[], l⟩ ⟨[], r⟩ total =
        .ok (total + (l.zip r).countP (fun p => decide (p.1 % 256 = p.2 % 256))) := by
  induction fuel with
  | zero => intro l r total _ h; omega
  | succ fuel ih =>
    intro l r total hlen hf
    have hC : CHUNK_SIZE = 262144 := rfl
    rw [bufLoopF]
    simp only [BufReader.fillBuf, List.isEmpty_nil, if_true, BufReader.consume]
    by_cases hl : l = []
    · subst hl
      have hr : r = [] := by
        cases r with
        | nil => rfl
        | cons b t => simp at hlen
      subst hr
      simp
    · have hlpos : 0 < l.length := List.length_pos.2 hl
      have htake : (l.take CHUNK_SIZE).length ≠ 0 := by
        simp only [List.length_take]
        omega
      rw [if_neg htake]
      have hbd : diff_buffer (l.take CHUNK_SIZE) (r.take CHUNK_SIZE) =
          some (((l.take CHUNK_SIZE).zip (r.take CHUNK_SIZE)).countP
            (fun p => decide (p.1 % 256 = p.2 % 256))) := by
        unfold diff_buffer
        rw [if_pos (by simp only [List.length_take, hlen])]
      rw [hbd]
      simp only [List.drop_length, List.length_take]
      have hdrop : (l.take CHUNK_SIZE).drop (min CHUNK_SIZE l.length) = [] := by
        apply List.drop_eq_nil_of_le
        simp [List.length_take]
      have hdropr : (r.take CHUNK_SIZE).drop (min CHUNK_SIZE l.length) = [] := by
        apply List.drop_eq_nil_of_le
        simp [List.length_take, hlen]
      rw [hdrop, hdropr,
        ih (l.drop CHUNK_SIZE) (r.drop CHUNK_SIZE) _
          (by simp [hlen]) (by simp only [List.length_drop]; omega)]
      rw [zip_take_drop CHUNK_SIZE l r, List.countP_append]
      simp [Nat.add_assoc]

/-- Full characterization of `diff_bytes` on two regular files of equal
size, in terms of the byte-match count of their contents. -/
theorem diff_bytes_eq_of_length_eq (ln rn : String) (fx fy : FileData)
    (h : fx.bytes.length = fy.bytes.length) :
    diff_bytes ln rn (.file fx) (.file fy) =
      (let total_matches :=
        (fx.bytes.zip fy.bytes).countP (fun p => decide (p.1 % 256 = p.2 % 256))
       let fsize := fx.bytes.length
       let matches' := decide (total_matches = fsize)
       .ok (.mk ln rn matches' [] [] []
        (if fsize = 0 then (if total_matches = 0 then .nan else .posInf)
         else .finite ((total_matches : ℚ) / (fsize : ℚ)))
        (if matches' then ""
         else toString total_matches ++ " of " ++ toString fsize ++ " bytes match")
        []
        (if matches' then ""
         else ln ++ " vs " ++ rn ++ ": " ++
           (if matches' then ""
            else toString total_matches ++ " of " ++ toString fsize ++
              " bytes match")))) := by
  unfold diff_bytes diff_bytesWith
  simp only [FsObj.metaLen]
  rw [if_pos h, bufLoopF_diff_buffer (fx.bytes.length + 1) fx.bytes fy.bytes 0 h
    (by omega)]
  simp only [Nat.zero_add]

/-- C8 counterexample: the size-mismatch message the code produces uses
" vs. " (with a period), so on files of sizes 1 and 2 the
`additional_info` is "file sizes differ: 1 vs. 2", not the
"file sizes differ: 1 vs 2" format the claim quotes. -/
theorem C8_size_message_punctuation :
    (diff_bytes "a" "b" (.file ⟨[1], [], none⟩) (.file ⟨[2, 3], [], none⟩)).map
      Diff.additional_info = .ok "file sizes differ: 1 vs. 2" ∧
    "file sizes differ: 1 vs. 2" ≠ "file sizes differ: 1 vs 2" :=
  ⟨rfl, by decide⟩

/-- C8 amended: on any two objects whose reported sizes differ, the
streaming comparator short-circuits — the result is independent of the
buffer comparator, so no byte comparison runs — with `matches = false`
and `additional_info = "file sizes differ: L vs. R"` (period after
"vs"), and the report prefixes the two paths. -/
theorem C8_size_short_circuit (bc : List Nat → List Nat → Option Nat)
    (ln rn : String) (x y : FsObj) (h : x.metaLen ≠ y.metaLen) :
    diff_bytesWith bc ln rn x y = diff_bytes ln rn x y ∧
    ∀ d, diff_bytes ln rn x y = .ok d →
      d.matches' = false ∧
      d.additional_info =
        "file sizes differ: " ++ toString x.metaLen ++ " vs. " ++ toString y.metaLen ∧
      d.report = ln ++ " vs " ++ rn ++ ": " ++ d.additional_info := by
  unfold diff_bytes diff_bytesWith
  cases x with
  | dir le =>
    cases y with
    | dir re => exact ⟨rfl, fun d hd => by cases hd⟩
    | file fy => exact ⟨rfl, fun d hd => by cases hd⟩
  | file fx =>
    dsimp only
    rw [if_neg h, if_neg h]
    refine ⟨rfl, fun d hd => ?_⟩
    cases hd
    exact ⟨rfl, rfl, rfl⟩

/-- C8 witness: the short-circuit applied with a probe comparator that
would abort on any invocation, on concrete files of sizes 1 and 2. -/
theorem C8_size_short_circuit_witness :
    diff_bytesWith (fun _ _ => none) "a" "b" (.file ⟨[1], [], none⟩)
        (.file ⟨[2, 3], [], none⟩) =
      diff_bytes "a" "b" (.file ⟨[1], [], none⟩) (.file ⟨[2, 3], [], none⟩) :=
  (C8_size_short_circuit (fun _ _ => none) "a" "b" (.file ⟨[1], [], none⟩)
    (.file ⟨[2, 3], [], none⟩) (by decide)).1

/-- C9: evaluation at the failing inputs.  When only the right side has
the wrong kind, no wrong-kind error is raised: the directory comparator
invoked on (directory, file) passes its precondition check and aborts
with the generic listing failure "Boo", and the byte comparator invoked
on (file, directory) proceeds to an ordinary size-mismatch outcome.
Only a wrong left side trips the wrong-kind errors (last two
conjuncts). -/
theorem C9_right_side_kind_unchecked :
    diff_directory "L" "R" (.dir []) (.file ⟨[1], [], none⟩) = .error "Boo" ∧
    (diff_bytes "L" "R" (.file ⟨[1], [], none⟩) (.dir [])).map
      (fun d => (d.matches', d.additional_info)) =
        .ok (false, "file sizes differ: 1 vs. 4096") ∧
    diff_directory "L" "R" (.file ⟨[1], [], none⟩) (.dir []) =
      .error "Left is not a dir!" ∧
    diff_directory "L" "R" (.file ⟨[1], [], none⟩) (.file ⟨[2], [], none⟩) =
      .error "Left and right are not dirs!" := by
  refine ⟨?_, rfl, ?_, ?_⟩ <;>
    simp [diff_directory, diff_directoryFuel, FsObj.height]

/-- `List.contains` agrees with membership (strings have a lawful
equality test). -/
theorem contains_iff (l : List String) (x : String) : l.contains x = true ↔ x ∈ l :=
  List.elem_iff

/-- Negative form of `contains_iff`. -/
theorem contains_false_iff (l : List String) (x : String) :
    l.contains x = false ↔ x ∉ l := by
  rw [← contains_iff]
  cases l.contains x <;> simp

/-- The left reconciliation loop computes the two order-preserving
filters of the left listing. -/
theorem partitionLeft_eq (L R : List String) :
    partitionLeft L R =
      (L.filter (fun x => R.contains x), L.filter (fun x => !R.contains x)) := by
  induction L with
  | nil => rfl
  | cons a t ih =>
    simp only [partitionLeft, ih, List.filter_cons]
    cases hR : R.contains a <;> simp

/-- The right reconciliation loop computes an order-preserving filter of
the right listing. -/
theorem rightOnlyList_eq (R c : List String) :
    rightOnlyList R c = R.filter (fun x => !c.contains x) := by
  induction R with
  | nil => rfl
  | cons a t ih =>
    simp only [rightOnlyList, ih, List.filter_cons]
    cases hc : c.contains a <;> simp

/-- C7: the reconciliation loops of the directory comparator compute
`common` and `left_only` as order-preserving filters of the left listing,
`right_only` as the order-preserving filter of the right listing by
non-membership in `common` (equivalently, by absence from the left
listing), and every name of either listing lands in exactly one of the
three. -/
theorem C7_partition_exactly_one (L R : List String) :
    (partitionLeft L R).1 = L.filter (fun x => R.contains x) ∧
    (partitionLeft L R).2 = L.filter (fun x => !R.contains x) ∧
    rightOnlyList R (partitionLeft L R).1 = R.filter (fun x => !L.contains x) ∧
    ∀ n : String, n ∈ L ∨ n ∈ R →
      ((n ∈ (partitionLeft L R).1 ∧ n ∉ (partitionLeft L R).2 ∧
          n ∉ rightOnlyList R (partitionLeft L R).1) ∨
       (n ∉ (partitionLeft L R).1 ∧ n ∈ (partitionLeft L R).2 ∧
          n ∉ rightOnlyList R (partitionLeft L R).1) ∨
       (n ∉ (partitionLeft L R).1 ∧ n ∉ (partitionLeft L R).2 ∧
          n ∈ rightOnlyList R (partitionLeft L R).1)) := by
  have hfst : (partitionLeft L R).1 = L.filter (fun x => R.contains x) := by
    rw [partitionLeft_eq]
  have hsnd : (partitionLeft L R).2 = L.filter (fun x => !R.contains x) := by
    rw [partitionLeft_eq]
  have hro : rightOnlyList R (partitionLeft L R).1 =
      R.filter (fun x => !L.contains x) := by
    rw [hfst, rightOnlyList_eq]
    refine List.filter_congr fun x hx => ?_
    by_cases hL : x ∈ L
    · have hmem : x ∈ L.filter (fun y => R.contains y) :=
        List.mem_filter.2 ⟨hL, (contains_iff R x).2 hx⟩
      rw [(contains_iff _ x).2 hmem, (contains_iff L x).2 hL]
    · have hmem : x ∉ L.filter (fun y => R.contains y) := fun hmem =>
        hL (List.mem_filter.1 hmem).1
      rw [(contains_false_iff _ x).2 hmem, (contains_false_iff L x).2 hL]
  refine ⟨hfst, hsnd, hro, fun n hn => ?_⟩
  have hc : n ∈ (partitionLeft L R).1 ↔ n ∈ L ∧ n ∈ R := by
    simp [hfst, List.mem_filter, contains_iff]
  have hl : n ∈ (partitionLeft L R).2 ↔ n ∈ L ∧ n ∉ R := by
    simp [hsnd, List.mem_filter, Bool.not_eq_true', contains_false_iff]
  have hr : n ∈ rightOnlyList R (partitionLeft L R).1 ↔ n ∈ R ∧ n ∉ L := by
    simp [hro, List.mem_filter, Bool.not_eq_true', contains_false_iff]
  by_cases hL : n ∈ L <;> by_cases hR : n ∈ R
  · exact Or.inl ⟨hc.2 ⟨hL, hR⟩, fun h => (hl.1 h).2 hR, fun h => (hr.1 h).2 hL⟩
  · exact Or.inr (Or.inl ⟨fun h => hR (hc.1 h).2, hl.2 ⟨hL, hR⟩,
      fun h => (hr.1 h).2 hL⟩)
  · exact Or.inr (Or.inr ⟨fun h => hL (hc.1 h).1, fun h => hL (hl.1 h).1,
      hr.2 ⟨hR, hL⟩⟩)
  · rcases hn with h | h
    · exact absurd h hL
    · exact absurd h hR

/-- C7 witness: the partition facts applied to concrete listings. -/
theorem C7_partition_exactly_one_witness :
    (partitionLeft ["a", "b"] ["b", "c"]).1 = ["b"] ∧
    (partitionLeft ["a", "b"] ["b", "c"]).2 = ["a"] ∧
    rightOnlyList ["b", "c"] (partitionLeft ["a", "b"] ["b", "c"]).1 = ["c"] := by
  have h := C7_partition_exactly_one ["a", "b"] ["b", "c"]
  exact ⟨h.1.trans (by decide), h.2.1.trans (by decide), h.2.2.1.trans (by decide)⟩

/-- The `matches` flag after a replacement is the replacement. -/
theorem Diff.matches_withMatches (d : Diff) (b : Bool) :
    (d.withMatches b).matches' = b := by
  cases d
  rfl

/-- C6 counterexample: with a nonempty `left_only` (["x"]) and a single
matching sub-diff, the parent does not match; flipping that sub-diff's
flag leaves the parent still not matching, so the flip does not flip the
parent's flag as the claim asserts. -/
theorem C6_flip_not_unconditional :
    dirMatches ["x"] [] [(Diff.new "l" "r").withMatches true] = false ∧
    dirMatches ["x"] []
      [((Diff.new "l" "r").withMatches true).withMatches
        (!((Diff.new "l" "r").withMatches true).matches')] = false :=
  ⟨rfl, rfl⟩

/-- C6 amended: a directory comparison result matches iff both exclusive
name sets are empty and every sub-diff matches; and flipping a single
sub-diff's flag flips the parent's aggregation precisely under the side
condition that both exclusive sets are empty and every other sub-diff
matches. -/
theorem C6_aggregation (ln rn : String) (x y : FsObj) (d : Diff)
    (hd : diff_directory ln rn x y = .ok d) :
    (d.matches' = true ↔ d.left_only = [] ∧ d.right_only = [] ∧
      ∀ s ∈ d.sub_diffs, s.matches' = true) ∧
    ∀ (lo ro : List String) (pre post : List Diff) (e : Diff),
      lo = [] → ro = [] →
      (∀ s ∈ pre, s.matches' = true) → (∀ s ∈ post, s.matches' = true) →
      dirMatches lo ro (pre ++ e.withMatches (!e.matches') :: post) =
        !dirMatches lo ro (pre ++ e :: post) := by
  constructor
  · rw [diff_directory, diff_directoryFuel.eq_def] at hd
    cases x with
    | file fx => cases y <;> cases hd
    | dir lentries =>
      cases y with
      | file fy => cases hd
      | dir rentries =>
        dsimp only at hd
        split at hd
        · cases hd
        · cases hd
          simp only [Diff.matches', Diff.left_only, Diff.right_only, Diff.sub_diffs,
            dirMatches, Bool.and_eq_true, decide_eq_true_eq, List.length_eq_zero,
            List.all_eq_true, and_assoc]
  · intro lo ro pre post e h1 h2 hpre hpost
    subst h1
    subst h2
    simp only [dirMatches, List.all_append, List.all_cons, Diff.matches_withMatches,
      List.all_eq_true.2 hpre, List.all_eq_true.2 hpost]
    cases e.matches' <;> rfl

/-- C6 witness: the flip statement applied at a concrete singleton
sub-diff list with empty exclusive sets (an empty-directory self
comparison supplies the required result record). -/
theorem C6_aggregation_witness :
    dirMatches [] []
      ([] ++ ((Diff.new "l" "r").withMatches true).withMatches
        (!((Diff.new "l" "r").withMatches true).matches') :: []) =
      !dirMatches [] [] ([] ++ ((Diff.new "l" "r").withMatches true) :: []) :=
  (C6_aggregation "L" "R" (.dir []) (.dir [])
      (.mk "L" "R" true [] [] [] (.finite (-1)) "" [] "") (by
        rw [diff_directory, diff_directoryFuel.eq_def]
        simp [subDiffsFuel, partitionLeft, rightOnlyList, dirMatches])).2
    [] [] [] [] ((Diff.new "l" "r").withMatches true) rfl rfl
    (fun s hs => absurd hs (List.not_mem_nil s))
    (fun s hs => absurd hs (List.not_mem_nil s))

/-- Each entry of a dispatch-clean directory is dispatch-clean at its
joined path. -/
theorem goodDispatchList_mem {name : String} {es : List (String × FsObj)}
    (h : goodDispatchList name es = true) :
    ∀ p ∈ es, goodDispatch (name ++ "/" ++ p.1) p.2 = true := by
  induction es with
  | nil => intro p hp; exact absurd hp (List.not_mem_nil p)
  | cons e es ih =>
    rw [goodDispatchList, Bool.and_eq_true] at h
    intro p hp
    rcases List.mem_cons.1 hp with hp | hp
    · subst hp; exact h.1
    · exact ih h.2 p hp

/-- The height of any entry is bounded by the list height. -/
theorem heightList_mem {es : List (String × FsObj)} (p : String × FsObj)
    (h : p ∈ es) : FsObj.height p.2 ≤ FsObj.heightList es := by
  induction es with
  | nil => exact absurd h (List.not_mem_nil p)
  | cons e es ih =>
    rw [FsObj.heightList]
    rcases List.mem_cons.1 h with hp | hp
    · subst hp; exact le_max_left _ _
    · exact le_trans (ih hp) (le_max_right _ _)

/-- A name occurring in the entry list resolves to some entry with that
name. -/
theorem childNamed_mem {es : List (String × FsObj)} {f : String}
    (h : f ∈ es.map Prod.fst) :
    ∃ p, p ∈ es ∧ p.1 = f ∧ childNamed es f = some p.2 := by
  obtain ⟨q, hq, hqf⟩ := List.mem_map.1 h
  have hsome : (es.find? (fun e => e.1 == f)).isSome :=
    List.find?_isSome.2 ⟨q, hq, by simp [hqf]⟩
  obtain ⟨p, hp⟩ := Option.isSome_iff_exists.1 hsome
  refine ⟨p, List.mem_of_find?_eq_some hp, ?_, ?_⟩
  · have := List.find?_some hp
    exact eq_of_beq (by simpa using this)
  · rw [childNamed, hp, Option.map_some']

/-- `diff_bytes` on a file against itself reports a full match. -/
theorem diff_bytes_self (ln rn : String) (fd : FileData) :
    ∃ d, diff_bytes ln rn (.file fd) (.file fd) = .ok d ∧ d.matches' = true := by
  have h := diff_bytes_eq_of_length_eq ln rn fd fd rfl
  dsimp only at h
  refine ⟨_, h, ?_⟩
  simp [Diff.matches', countEq_self]

/-- The per-entry loop on a directory compared with itself succeeds with
all children matching, provided the dispatcher is reflexive at the next
level down (the `IH` argument). -/
theorem subDiffsFuel_refl (fuel : Nat) (name : String) (es : List (String × FsObj))
    (IH : ∀ (n2 : String) (x : FsObj), FsObj.height x < fuel →
      goodDispatch n2 x = true →
      ∃ d, differFuel fuel n2 n2 x x = .ok d ∧ d.matches' = true)
    (hgood : goodDispatchList name es = true)
    (hh : FsObj.heightList es < fuel) :
    ∀ names, (∀ f ∈ names, f ∈ es.map Prod.fst) →
      ∃ ds, subDiffsFuel fuel name name es es names = .ok ds ∧
        ∀ s ∈ ds, s.matches' = true := by
  intro names
  induction names with
  | nil =>
    intro _
    exact ⟨[], by rw [subDiffsFuel], fun s hs => absurd hs (List.not_mem_nil s)⟩
  | cons f rest ihn =>
    intro hmem
    obtain ⟨p, hp, hpf, hchild⟩ := childNamed_mem (hmem f (List.mem_cons_self f rest))
    have hg := goodDispatchList_mem hgood p hp
    rw [hpf] at hg
    have hht : FsObj.height p.2 < fuel := lt_of_le_of_lt (heightList_mem p hp) hh
    obtain ⟨d, hd, hdm⟩ := IH (name ++ "/" ++ f) p.2 hht hg
    obtain ⟨ds, hds, hdsm⟩ := ihn (fun g hg' => hmem g (List.mem_cons_of_mem f hg'))
    refine ⟨d :: ds, ?_, ?_⟩
    · simp only [subDiffsFuel, hchild, hd, hds]
    · intro s hs
      rcases List.mem_cons.1 hs with hs | hs
      · subst hs; exact hdm
      · exact hdsm s hs

/-- Reflexivity of the bounded dispatcher on dispatch-clean objects. -/
theorem differFuel_refl : ∀ (fuel : Nat) (name : String) (x : FsObj),
    FsObj.height x < fuel → goodDispatch name x = true →
    ∃ d, differFuel fuel name name x x = .ok d ∧ d.matches' = true := by
  intro fuel
  induction fuel with
  | zero => intro name x h _; omega
  | succ fuel ih =>
    intro name x hh hg
    cases x with
    | file fd =>
      rw [goodDispatch, Bool.not_eq_eq_eq_not, Bool.not_true] at hg
      obtain ⟨d, hd, hdm⟩ := diff_bytes_self name name fd
      refine ⟨d, ?_, hdm⟩
      rw [differFuel, hg]
      simpa using hd
    | dir es =>
      rw [goodDispatch] at hg
      rw [FsObj.height] at hh
      have hhl : FsObj.heightList es < fuel := by omega
      have hfalse : ∀ a ∈ es.map Prod.fst, (!(es.map Prod.fst).contains a) = false :=
        fun a ha => by rw [(contains_iff (es.map Prod.fst) a).2 ha, Bool.not_true]
      have hpart : partitionLeft (es.map Prod.fst) (es.map Prod.fst) =
          (es.map Prod.fst, []) := by
        rw [partitionLeft_eq,
          List.filter_eq_self.2 (fun a ha => (contains_iff _ a).2 ha),
          List.filter_eq_nil_iff.2 (fun a ha => by rw [hfalse a ha]; exact Bool.false_ne_true)]
      have hro : rightOnlyList (es.map Prod.fst) (es.map Prod.fst) = [] := by
        rw [rightOnlyList_eq,
          List.filter_eq_nil_iff.2 (fun a ha => by rw [hfalse a ha]; exact Bool.false_ne_true)]
      obtain ⟨ds, hds, hdsm⟩ := subDiffsFuel_refl fuel name es ih hg hhl
        (es.map Prod.fst) (fun f hf => hf)
      rw [differFuel, diff_directoryFuel.eq_def]
      dsimp only
      rw [hpart]
      dsimp only
      rw [hro, hds]
      refine ⟨_, rfl, ?_⟩
      simp only [Diff.matches']
      simp only [dirMatches, List.length_nil, decide_eq_true_eq, List.all_eq_true,
        Bool.and_eq_true]
      exact ⟨⟨by simp, by simp⟩, fun s hs => hdsm s hs⟩

/-- C5 amended: the dispatcher is reflexive — `differ(X, X).matches` is
true — for every file or directory X none of whose dispatch paths
carries the recognized image suffix (those are routed to the byte or
directory comparators; typed-image self-comparisons can fail, see the
counterexample). -/
theorem C5_reflexivity (name : String) (x : FsObj)
    (h : goodDispatch name x = true) :
    (differ name name x x).map Diff.matches' = .ok true := by
  obtain ⟨d, hd, hm⟩ := differFuel_refl (FsObj.height x + 1) name x (by omega) h
  rw [differ, hd, Except.map, hm]

/-- C5 witness: reflexivity applied to a concrete two-level directory
tree. -/
theorem C5_reflexivity_witness :
    (differ "root" "root" sampleTree sampleTree).map Diff.matches' = .ok true :=
  C5_reflexivity "root" sampleTree (by
    simp only [sampleTree, goodDispatch, goodDispatchList]
    decide)

set_option maxRecDepth 100000 in
/-- C5 counterexample: a realistic single-voxel `.nii` file compared
with itself does not match — the header-skip defect makes the voxel loop
compare all 177 16-bit words of the 354-byte file while the header
declares a single voxel, so the match count 177 differs from the voxel
count 1. -/
theorem C5_nii_self_compare_fails :
    (differ "x.nii" "x.nii" (.file niiSelfData) (.file niiSelfData)).map
      Diff.matches' = .ok false := by
  rw [differ, differFuel.eq_def]
  simp only [FsObj.height]
  rfl

end Rsdiff
